import Mathlib

/-!
# The-Glue: canonical ABI marshaling and invocation

A shallow embedding of `src/canonical_abi.c` (`marshal_struct`,
`unmarshal_struct`, `call_function` and the two type-table helpers) together
with the properties of the packed ("canonical") representation.

Modelling conventions.

* A C object reached through a pointer is a byte store `Mem`, addressed by the
  byte offset from the pointer. Distinct pointer arguments denote distinct
  objects (the source uses `memcpy`, which already requires this).
* A pointer argument that the source tests against `NULL` is an `Option`.
* A function that writes through a pointer returns the final contents of the
  pointee next to its C return value.
* `canonical_offset` is a `size_t` that only ever counts bytes already copied
  into the destination object, so it stays far below `2^64` in any run; it is
  kept as a natural number.
-/

namespace CanonicalABI

/-! ## Memory -/

/-- One byte of storage. The marshaler only moves bytes, it never computes on them. -/
abbrev Byte := Nat

/-- The bytes of an object, indexed by the offset from the pointer to it. -/
abbrev Mem := Nat → Byte

/-- The C library call `memcpy(dst + d, src + s, n)`; the result is the new `dst`. -/
def memcpy (dst : Mem) (d : Nat) (src : Mem) (s n : Nat) : Mem :=
  fun a => if d ≤ a ∧ a < d + n then src (s + (a - d)) else dst a

/-- The `n` bytes of `m` starting at offset `off`. -/
def read_bytes (m : Mem) (off n : Nat) : List Byte :=
  (List.range n).map (fun k => m (off + k))

/-- Store the bytes `bs` into `m` starting at offset `off`. -/
def write_bytes (m : Mem) (off : Nat) (bs : List Byte) : Mem :=
  fun a => if off ≤ a ∧ a < off + bs.length then bs.getD (a - off) 0 else m a

/-! ## Struct layout descriptors -/

/-- Modelled from the spec: the `CanonicalMember` record of
`include/canonical_abi.h` (not among the sources), one struct member given by
its native offset and its size, both unsigned. -/
structure CanonicalMember where
  offset : Nat
  size : Nat
  deriving DecidableEq, Repr

/-- Modelled from the spec: the `CanonicalStruct` record of
`include/canonical_abi.h` (not among the sources). The list `members` stands
for the array entries `members[0 .. num_members)`, in declared order. -/
structure CanonicalStruct where
  members : List CanonicalMember
  canonical_size : Nat
  deriving DecidableEq, Repr

/-- The sum of the sizes of a list of members. -/
def members_size (ms : List CanonicalMember) : Nat :=
  (ms.map (fun m => m.size)).sum

/-- The loop of `marshal_struct` (source lines 50-61), started at member list
`ms` with running offset `canonical_offset`. Returns the final offset and buffer. -/
def marshal_loop (native : Mem) : List CanonicalMember → Nat → Mem → Nat × Mem
  | [], canonical_offset, buffer => (canonical_offset, buffer)
  | member :: rest, canonical_offset, buffer =>
      marshal_loop native rest (canonical_offset + member.size)
        (memcpy buffer canonical_offset native member.offset member.size)

/-- The function `marshal_struct` of `canonical_abi.c`: the C return value and
the destination buffer after the call. -/
def marshal_struct (cs : Option CanonicalStruct) (native_struct_ptr : Option Mem)
    (buffer : Option Mem) (buffer_size : Nat) : Nat × Option Mem :=
  match cs, native_struct_ptr, buffer with
  | some cs, some native, some buf =>
      if buffer_size < cs.canonical_size then (0, some buf)
      else
        let r := marshal_loop native cs.members 0 buf
        if r.1 ≠ cs.canonical_size then (0, some r.2) else (r.1, some r.2)
  | _, _, _ => (0, buffer)

/-- The loop of `unmarshal_struct` (source lines 185-196). Returns the final
offset and the native instance. -/
def unmarshal_loop (buffer : Mem) : List CanonicalMember → Nat → Mem → Nat × Mem
  | [], canonical_offset, native => (canonical_offset, native)
  | member :: rest, canonical_offset, native =>
      unmarshal_loop buffer rest (canonical_offset + member.size)
        (memcpy native member.offset buffer canonical_offset member.size)

/-- The function `unmarshal_struct` of `canonical_abi.c`: the C return value
and the native instance after the call. -/
def unmarshal_struct (cs : Option CanonicalStruct) (buffer : Option Mem)
    (buffer_size : Nat) (native_struct_ptr : Option Mem) : Nat × Option Mem :=
  match cs, buffer, native_struct_ptr with
  | some cs, some buf, some native =>
      if buffer_size ≠ cs.canonical_size then (0, some native)
      else
        let r := unmarshal_loop buf cs.members 0 native
        if r.1 ≠ cs.canonical_size then (0, some r.2) else (r.1, some r.2)
  | _, _, _ => (0, native_struct_ptr)

/-- The buffer `buf` holds, from offset `off` on, the member slices of
`native` for the members `ms`, back to back. -/
def Packed (native buf : Mem) : List CanonicalMember → Nat → Prop
  | [], _ => True
  | m :: rest, off =>
      (∀ t, t < m.size → buf (off + t) = native (m.offset + t)) ∧
        Packed native buf rest (off + m.size)

/-- The address `a` lies in the region of some member of `ms`. -/
def Covered (ms : List CanonicalMember) (a : Nat) : Prop :=
  ∃ m ∈ ms, m.offset ≤ a ∧ a < m.offset + m.size

/-! ## Type descriptor table -/

/-- Modelled from the spec: the `CType` enumeration of `include/canonical_abi.h`
(not among the sources), with the nine tags the source switches on. The
constructor `unknown raw` stands for an enum object holding a value that
matches none of the nine case labels. -/
inductive CType where
  | C_TYPE_VOID
  | C_TYPE_CHAR
  | C_TYPE_SHORT
  | C_TYPE_INT
  | C_TYPE_LONG
  | C_TYPE_FLOAT
  | C_TYPE_DOUBLE
  | C_TYPE_POINTER
  | C_TYPE_STRUCT
  | unknown (raw : Nat)
  deriving DecidableEq, Repr

/-- The libffi type descriptors the source takes the address of. -/
inductive ffi_type where
  | ffi_type_void
  | ffi_type_schar
  | ffi_type_sshort
  | ffi_type_sint
  | ffi_type_slong
  | ffi_type_float
  | ffi_type_double
  | ffi_type_pointer
  deriving DecidableEq, Repr

/-- The `size` field of a libffi type descriptor on an LP64 host. -/
def ffi_type.size : ffi_type → Nat
  | .ffi_type_void => 1
  | .ffi_type_schar => 1
  | .ffi_type_sshort => 2
  | .ffi_type_sint => 4
  | .ffi_type_slong => 8
  | .ffi_type_float => 4
  | .ffi_type_double => 8
  | .ffi_type_pointer => 8

/-- The helper `ctype_to_ffi_type` of `canonical_abi.c`; `none` is `NULL`. -/
def ctype_to_ffi_type : CType → Option ffi_type
  | .C_TYPE_VOID => some .ffi_type_void
  | .C_TYPE_CHAR => some .ffi_type_schar
  | .C_TYPE_SHORT => some .ffi_type_sshort
  | .C_TYPE_INT => some .ffi_type_sint
  | .C_TYPE_LONG => some .ffi_type_slong
  | .C_TYPE_FLOAT => some .ffi_type_float
  | .C_TYPE_DOUBLE => some .ffi_type_double
  | .C_TYPE_POINTER => some .ffi_type_pointer
  | .C_TYPE_STRUCT => some .ffi_type_pointer
  | .unknown _ => none

/-- The helper `get_canonical_type_size` of `canonical_abi.c`, with the
`sizeof` values of an LP64 host. -/
def get_canonical_type_size : CType → Nat
  | .C_TYPE_CHAR => 1
  | .C_TYPE_SHORT => 2
  | .C_TYPE_INT => 4
  | .C_TYPE_LONG => 8
  | .C_TYPE_FLOAT => 4
  | .C_TYPE_DOUBLE => 8
  | .C_TYPE_POINTER => 8
  | .C_TYPE_STRUCT => 8
  | _ => 0

/-! ## Function descriptors, results and the host -/

/-- Modelled from the spec: the `CanonicalFunction` record of
`include/canonical_abi.h` (not among the sources), with the fields the source
and `manual_shims.c` use. `arg_types` is the array the pointer field refers
to; `num_args` is the separately stored count (a C `int`). -/
structure CanonicalFunction where
  name : String
  return_type : CType
  num_args : Int
  arg_types : List CType
  deriving DecidableEq, Repr

/-- Modelled from the spec: the `CanonicalResult` union of
`include/canonical_abi.h` (not among the sources): exactly one of a signed
integral value, the bit pattern of a double, or an address. -/
inductive CanonicalResult where
  | long_val (v : Int)
  | double_val (bits : Nat)
  | ptr_val (addr : Nat)
  deriving DecidableEq, Repr

/-- The four scratch allocations of `call_function`, named after the
variables that hold them. -/
inductive Scratch where
  | ffi_arg_types
  | arg_pointers
  | arg_values
  | rc_val
  deriving DecidableEq, Repr

/-- What `call_function` does to the outside world, in program order. -/
inductive Event where
  | malloc (which : Scratch) (size : Nat) (ok : Bool)
  | free (which : Scratch)
  | ffi_prep_cif (ok : Bool)
  | ffi_call (arg_values : List Byte) (arg_pointers : List Nat)
  deriving DecidableEq, Repr

/-- A native function as the foreign-call primitive sees it: the byte images
of the arguments go in, the byte image of the return value comes out. -/
abbrev NativeFn := List (List Byte) → List Byte

/-- The parts of the host that `call_function` cannot determine:
whether each `malloc` succeeds, whether `ffi_prep_cif` reports `FFI_OK`,
what lies in memory behind the end of the `arg_types` array, and the
indeterminate contents of freshly allocated memory. -/
structure Host where
  malloc_ok : Scratch → Nat → Bool
  prep_cif_ok : Int → ffi_type → List ffi_type → Bool
  stray_tag : Nat → CType
  heap_fill : Mem

/-- The C return value of `call_function`, the `CanonicalResult` object after
the call (`none` when the pointer was `NULL`), and the events of the call. -/
structure CallOutcome where
  ret : Int
  result : Option CanonicalResult
  trace : List Event

/-- Conversion of a C `int` to `size_t`. -/
def to_size_t (n : Int) : Nat := (n % 2 ^ 64).toNat

/-- The `size_t` product `sizeof(T) * n` for an element size `elem`. -/
def size_mul (elem : Nat) (n : Int) : Nat := (elem * to_size_t n) % 2 ^ 64

/-- The array read `cf->arg_types[i]`. -/
def tag_at (host : Host) (cf : CanonicalFunction) (i : Nat) : CType :=
  match cf.arg_types[i]? with
  | some t => t
  | none => host.stray_tag (i - cf.arg_types.length)

/-- The loop of source lines 85-91, at index `i` with `k` iterations left:
the resolved descriptors, or `none` at the first tag that does not resolve. -/
def resolve_arg_types (tags : Nat → CType) : Nat → Nat → Option (List ffi_type)
  | _, 0 => some []
  | i, k + 1 =>
      match ctype_to_ffi_type (tags i) with
      | none => none
      | some t =>
          match resolve_arg_types tags (i + 1) k with
          | none => none
          | some ts => some (t :: ts)

/-- The loop of source lines 109-111, at index `i` with `k` iterations left.
With at most `2^31` arguments of at most 8 bytes the `size_t` sum cannot wrap. -/
def sum_arg_sizes (tags : Nat → CType) : Nat → Nat → Nat → Nat
  | _, 0, arg_values_size => arg_values_size
  | i, k + 1, arg_values_size =>
      sum_arg_sizes tags (i + 1) k (arg_values_size + get_canonical_type_size (tags i))

/-- The loop of source lines 123-126, at index `i` with `k` iterations left:
the offsets into `arg_values` that the argument pointers are set to. -/
def set_arg_pointers (tags : Nat → CType) : Nat → Nat → Nat → List Nat
  | _, 0, _ => []
  | i, k + 1, current_offset =>
      current_offset ::
        set_arg_pointers tags (i + 1) k (current_offset + get_canonical_type_size (tags i))

/-- The value of a little-endian byte string. -/
def le_value : List Byte → Nat
  | [] => 0
  | b :: bs => b + 256 * le_value bs

/-- The `n` low bytes of `v`, little-endian. -/
def encode_le : Nat → Nat → List Byte
  | 0, _ => []
  | n + 1, v => v % 256 :: encode_le n (v / 256)

/-- Two's-complement reading of a `bits`-wide pattern. -/
def to_signed (bits : Nat) (v : Nat) : Int :=
  if v < 2 ^ (bits - 1) then (v : Int) else (v : Int) - 2 ^ bits

/-- Sign extension of a little-endian byte string to `n` bytes. -/
def sign_extend (bs : List Byte) (n : Nat) : List Byte :=
  bs ++ List.replicate (n - bs.length) (if 128 ≤ bs.getLastD 0 then 255 else 0)

/-- What libffi stores in the return slot: an integral return value narrower
than a register is widened to a full `ffi_arg` word (8 bytes), every other
value is stored at its own size. -/
def widen_return (rtype : ffi_type) (raw : List Byte) : List Byte :=
  match rtype with
  | .ffi_type_schar => sign_extend raw 8
  | .ffi_type_sshort => sign_extend raw 8
  | .ffi_type_sint => sign_extend raw 8
  | _ => raw

/-- The libffi primitive `ffi_call(&cif, fn, rvalue, avalue)` for a call
interface prepared with return type `rtype` and argument types `atypes`:
every argument is read at its pointer with the size of its descriptor, the
function runs, and the return value is stored through `rvalue` unless that is
`NULL`. The result is the return slot after the call; the slot is a byte store
of its own, so the number of bytes stored is not cut off at the size that was
requested from `malloc`. -/
def ffi_call (rtype : ffi_type) (atypes : List ffi_type) (fn : NativeFn)
    (rvalue : Option Mem) (arg_values : Mem) (avalue : List Nat) : Option Mem :=
  let args := List.zipWith (fun t p => read_bytes arg_values p t.size) atypes avalue
  let raw := fn args
  match rvalue with
  | some slot => some (write_bytes slot 0 (widen_return rtype raw))
  | none => none

/-- The switch of source lines 145-162 on a return slot `slot`. -/
def store_result (return_type : CType) (slot : Mem) (result : CanonicalResult) :
    CanonicalResult :=
  match return_type with
  | .C_TYPE_INT => .long_val (to_signed 64 (le_value (read_bytes slot 0 8)))
  | .C_TYPE_SHORT => .long_val (to_signed 64 (le_value (read_bytes slot 0 8)))
  | .C_TYPE_CHAR => .long_val (to_signed 64 (le_value (read_bytes slot 0 8)))
  | .C_TYPE_LONG => .long_val (to_signed 64 (le_value (read_bytes slot 0 8)))
  | .C_TYPE_FLOAT => .double_val (le_value (read_bytes slot 0 8))
  | .C_TYPE_DOUBLE => .double_val (le_value (read_bytes slot 0 8))
  | .C_TYPE_POINTER => .ptr_val (le_value (read_bytes slot 0 8))
  | .C_TYPE_STRUCT => .ptr_val (le_value (read_bytes slot 0 8))
  | _ => result

/-- The function `call_function` of `canonical_abi.c`. -/
def call_function (host : Host) (cf : Option CanonicalFunction) (func_ptr : Option NativeFn)
    (args_buffer : Mem) (result : Option CanonicalResult) : CallOutcome :=
  match cf, func_ptr, result with
  | some cf, some fn, some res =>
    match ctype_to_ffi_type cf.return_type with
    | none => ⟨-1, some res, []⟩
    | some ffi_return_type =>
      let n := cf.num_args.toNat
      let tags := tag_at host cf
      let size1 := size_mul 8 cf.num_args
      if host.malloc_ok .ffi_arg_types size1 = false then
        ⟨-1, some res, [.malloc .ffi_arg_types size1 false]⟩
      else
      let t1 := [Event.malloc .ffi_arg_types size1 true]
      match resolve_arg_types tags 0 n with
      | none => ⟨-1, some res, t1 ++ [.free .ffi_arg_types]⟩
      | some ffi_arg_types =>
        if host.prep_cif_ok cf.num_args ffi_return_type ffi_arg_types = false then
          ⟨-1, some res, t1 ++ [.ffi_prep_cif false, .free .ffi_arg_types]⟩
        else
        let t2 := t1 ++ [Event.ffi_prep_cif true]
        let size2 := size_mul 8 cf.num_args
        if host.malloc_ok .arg_pointers size2 = false then
          ⟨-1, some res, t2 ++ [.malloc .arg_pointers size2 false, .free .ffi_arg_types]⟩
        else
        let t3 := t2 ++ [Event.malloc .arg_pointers size2 true]
        let arg_values_size := sum_arg_sizes tags 0 n 0
        if host.malloc_ok .arg_values arg_values_size = false then
          ⟨-1, some res, t3 ++ [.malloc .arg_values arg_values_size false,
            .free .ffi_arg_types, .free .arg_pointers]⟩
        else
        let t4 := t3 ++ [Event.malloc .arg_values arg_values_size true]
        let arg_values := memcpy host.heap_fill 0 args_buffer 0 arg_values_size
        let arg_pointers := set_arg_pointers tags 0 n 0
        if cf.return_type ≠ .C_TYPE_VOID ∧
            host.malloc_ok .rc_val ffi_return_type.size = false then
          ⟨-1, some res, t4 ++ [.malloc .rc_val ffi_return_type.size false,
            .free .ffi_arg_types, .free .arg_pointers, .free .arg_values]⟩
        else
        let rc_val : Option Mem :=
          if cf.return_type ≠ .C_TYPE_VOID then some host.heap_fill else none
        let t5 := t4 ++
          (if cf.return_type ≠ .C_TYPE_VOID then
            [Event.malloc .rc_val ffi_return_type.size true] else []) ++
          [Event.ffi_call (read_bytes arg_values 0 arg_values_size) arg_pointers]
        let slot := ffi_call ffi_return_type ffi_arg_types fn rc_val arg_values arg_pointers
        let res1 :=
          match slot with
          | some s => if cf.return_type ≠ .C_TYPE_VOID then store_result cf.return_type s res
                      else res
          | none => res
        ⟨0, some res1, t5 ++ [.free .ffi_arg_types, .free .arg_pointers, .free .arg_values] ++
          (if cf.return_type ≠ .C_TYPE_VOID then [Event.free .rc_val] else [])⟩
  | _, _, _ => ⟨-1, result, []⟩

/-! ## The test program -/

/-- The function `add` of `tests/simple_library.c`, on C `int`. -/
def add (a b : Int) : Int := to_signed 32 (((a + b) % 2 ^ 32).toNat)

/-- The object representation of a C `int` on the host (4 bytes, little-endian). -/
def int_bytes (x : Int) : List Byte := encode_le 4 ((x % 2 ^ 32).toNat)

/-- The C `int` held in a 4-byte object. -/
def bytes_int (bs : List Byte) : Int := to_signed 32 (le_value bs)

/-- The function pointer `&add` as the foreign-call primitive sees it. -/
def native_add : NativeFn := fun args =>
  match args with
  | [a, b] => int_bytes (add (bytes_int a) (bytes_int b))
  | _ => []

/-- The descriptor `add_meta` of `tests/manual_shims.c`. -/
def add_meta : CanonicalFunction :=
  { name := "add", return_type := .C_TYPE_INT, num_args := 2,
    arg_types := [.C_TYPE_INT, .C_TYPE_INT] }

/-- The descriptor `print_message_meta` of `tests/manual_shims.c`. -/
def print_message_meta : CanonicalFunction :=
  { name := "print_message", return_type := .C_TYPE_VOID, num_args := 1,
    arg_types := [.C_TYPE_POINTER] }

/-- A host on which every allocation and every interface preparation succeeds. -/
def nominal_host : Host :=
  { malloc_ok := fun _ _ => true, prep_cif_ok := fun _ _ _ => true,
    stray_tag := fun _ => .unknown 0, heap_fill := fun _ => 0 }

/-- The argument buffer that `test_add` builds from two `int` objects. -/
def add_args (a b : Int) : Mem := write_bytes (fun _ => 0) 0 (int_bytes a ++ int_bytes b)

/-- A layout whose declared size (2) disagrees with its single 1-byte member. -/
def short_layout : CanonicalStruct := { members := [{ offset := 0, size := 1 }], canonical_size := 2 }

/-- A layout with two overlapping 2-byte members, declared size 4. -/
def overlap_layout : CanonicalStruct :=
  { members := [{ offset := 0, size := 2 }, { offset := 1, size := 2 }], canonical_size := 4 }

/-- An object whose byte at offset `a` is `a + 10`. -/
def ramp : Mem := fun a => a + 10

/-- An object filled with zero bytes. -/
def zeros : Mem := fun _ => 0

/-- A descriptor whose second argument tag is outside the known set. -/
def bad_meta : CanonicalFunction :=
  { name := "bad", return_type := .C_TYPE_INT, num_args := 2,
    arg_types := [.C_TYPE_INT, .unknown 99] }

/-- A native function that returns nothing, such as `print_message`. -/
def native_void : NativeFn := fun _ => []

/-! ## Observations on a call -/

/-- The effect of one event on the set of live scratch allocations: a
successful `malloc` makes its block live, `free` releases a live block, and
releasing a block that is not live (or allocating one that still is) is an
error, `none`. -/
def heap_step (live : List Scratch) : Event → Option (List Scratch)
  | .malloc w _ true => if w ∈ live then none else some (w :: live)
  | .free w => if w ∈ live then some (live.erase w) else none
  | _ => some live

/-- The live scratch allocations after a sequence of events. -/
def heap_run : List Event → List Scratch → Option (List Scratch)
  | [], live => some live
  | e :: rest, live =>
      match heap_step live e with
      | none => none
      | some l => heap_run rest l

/-- Whether an event is a call to `malloc`, successful or not. -/
def is_malloc : Event → Bool
  | .malloc _ _ _ => true
  | _ => false

/-- Whether an event is the foreign call. -/
def is_ffi_call : Event → Bool
  | .ffi_call _ _ => true
  | _ => false

/-- The argument pointer arrays handed to the foreign call, as offsets into
the scratch storage, one entry per `ffi_call` event. -/
def call_pointers : List Event → List (List Nat)
  | [] => []
  | .ffi_call _ ptrs :: rest => ptrs :: call_pointers rest
  | _ :: rest => call_pointers rest

/-- The canonical offset of argument `i`: the sum of the canonical sizes of
the arguments before it. -/
def arg_offset (tags : Nat → CType) (i : Nat) : Nat :=
  ((List.range i).map (fun j => get_canonical_type_size (tags j))).sum

/-- The number of bytes that the switch of source lines 145-162 reads from
the return slot: the width of `long`, `double` or `void*` on an LP64 host. -/
def return_read_width : CType → Nat
  | .C_TYPE_INT => 8
  | .C_TYPE_SHORT => 8
  | .C_TYPE_CHAR => 8
  | .C_TYPE_LONG => 8
  | .C_TYPE_FLOAT => 8
  | .C_TYPE_DOUBLE => 8
  | .C_TYPE_POINTER => 8
  | .C_TYPE_STRUCT => 8
  | _ => 0

/-- The regions of two members have no byte in common. -/
def regions_disjoint (m1 m2 : CanonicalMember) : Prop :=
  ∀ a, ¬ ((m1.offset ≤ a ∧ a < m1.offset + m1.size) ∧ (m2.offset ≤ a ∧ a < m2.offset + m2.size))

/-- A descriptor that declares one argument but lists two tags. -/
def short_count_meta : CanonicalFunction :=
  { name := "short_count", return_type := .C_TYPE_INT, num_args := 1,
    arg_types := [.C_TYPE_INT, .C_TYPE_INT] }

/-- The descriptor of a function `(CHAR, INT) -> INT`. -/
def char_int_meta : CanonicalFunction :=
  { name := "char_int", return_type := .C_TYPE_INT, num_args := 2,
    arg_types := [.C_TYPE_CHAR, .C_TYPE_INT] }

/-- The descriptor of a function `(INT, DOUBLE) -> DOUBLE`. -/
def int_double_meta : CanonicalFunction :=
  { name := "int_double", return_type := .C_TYPE_DOUBLE, num_args := 2,
    arg_types := [.C_TYPE_INT, .C_TYPE_DOUBLE] }

/-- A layout with two disjoint members, at native offsets 0 and 4. -/
def pair_layout : CanonicalStruct :=
  { members := [{ offset := 0, size := 1 }, { offset := 4, size := 2 }], canonical_size := 3 }

/-- A native function without arguments that returns the address 4660 (8 bytes). -/
def native_address : NativeFn := fun _ => encode_le 8 4660

/-- The descriptor of a function `() -> STRUCT`. -/
def struct_return_meta : CanonicalFunction :=
  { name := "make", return_type := .C_TYPE_STRUCT, num_args := 0, arg_types := [] }

/-! ## Lemmas on the loops -/

theorem memcpy_inside (dst src : Mem) (d s n a : Nat) (h1 : d ≤ a) (h2 : a < d + n) :
    memcpy dst d src s n a = src (s + (a - d)) := by
  simp [memcpy, h1, h2]

theorem memcpy_outside (dst src : Mem) (d s n a : Nat) (h : a < d ∨ d + n ≤ a) :
    memcpy dst d src s n a = dst a := by
  have : ¬ (d ≤ a ∧ a < d + n) := by omega
  simp [memcpy, this]

theorem marshal_loop_fst (native : Mem) (ms : List CanonicalMember) (off : Nat) (buf : Mem) :
    (marshal_loop native ms off buf).1 = off + members_size ms := by
  induction ms generalizing off buf with
  | nil => simp [marshal_loop, members_size]
  | cons m rest ih =>
      simp only [marshal_loop, ih, members_size, List.map_cons, List.sum_cons]
      omega

theorem unmarshal_loop_fst (buffer : Mem) (ms : List CanonicalMember) (off : Nat) (native : Mem) :
    (unmarshal_loop buffer ms off native).1 = off + members_size ms := by
  induction ms generalizing off native with
  | nil => simp [unmarshal_loop, members_size]
  | cons m rest ih =>
      simp only [unmarshal_loop, ih, members_size, List.map_cons, List.sum_cons]
      omega

/-- The marshal loop started at `off` writes only into `[off, off + total)`. -/
theorem marshal_loop_frame (native : Mem) (ms : List CanonicalMember) (off : Nat) (buf : Mem)
    (a : Nat) (h : a < off ∨ off + members_size ms ≤ a) :
    (marshal_loop native ms off buf).2 a = buf a := by
  induction ms generalizing off buf with
  | nil => simp [marshal_loop]
  | cons m rest ih =>
      simp only [members_size, List.map_cons, List.sum_cons] at h
      simp only [marshal_loop]
      rw [ih]
      · apply memcpy_outside
        omega
      · simp only [members_size]
        omega

theorem packed_congr (native b1 b2 : Mem) (ms : List CanonicalMember) (off : Nat)
    (h : ∀ a, off ≤ a → b1 a = b2 a) (hp : Packed native b1 ms off) :
    Packed native b2 ms off := by
  induction ms generalizing off with
  | nil => trivial
  | cons m rest ih =>
      obtain ⟨h1, h2⟩ := hp
      refine ⟨?_, ih (off + m.size) (fun a ha => h a (by omega)) h2⟩
      intro t ht
      rw [← h (off + t) (by omega)]
      exact h1 t ht

/-- After the marshal loop the buffer holds the member slices back to back. -/
theorem marshal_loop_packed (native : Mem) (ms : List CanonicalMember) (off : Nat) (buf : Mem) :
    Packed native (marshal_loop native ms off buf).2 ms off := by
  induction ms generalizing off buf with
  | nil => trivial
  | cons m rest ih =>
      simp only [marshal_loop]
      refine ⟨?_, ih _ _⟩
      intro t ht
      rw [marshal_loop_frame native rest (off + m.size) _ (off + t) (Or.inl (by omega))]
      rw [memcpy_inside _ _ _ _ _ _ (by omega) (by omega)]
      congr 1
      omega

/-- A packed region reads back as the concatenation of the member slices. -/
theorem packed_read_bytes (native buf : Mem) (ms : List CanonicalMember) (off : Nat)
    (hp : Packed native buf ms off) :
    read_bytes buf off (members_size ms) =
      (ms.map (fun m => read_bytes native m.offset m.size)).flatten := by
  induction ms generalizing off with
  | nil => simp [members_size, read_bytes]
  | cons m rest ih =>
      obtain ⟨h1, h2⟩ := hp
      have ih2 := ih (off + m.size) h2
      simp only [List.map_cons, List.flatten_cons, ← ih2]
      simp only [members_size, List.map_cons, List.sum_cons, read_bytes]
      rw [List.range_add, List.map_append, List.map_map]
      congr 1
      · apply List.map_congr_left
        intro t ht
        exact h1 t (List.mem_range.mp ht)
      · apply List.map_congr_left
        intro t _
        simp [Nat.add_assoc]

/-- Unmarshaling a packed buffer makes every covered byte equal to the source
instance, also where member regions overlap. -/
theorem unmarshal_loop_restores (orig buf : Mem) (ms : List CanonicalMember) (off : Nat)
    (native : Mem) (hp : Packed orig buf ms off) (a : Nat)
    (h : native a = orig a ∨ Covered ms a) :
    (unmarshal_loop buf ms off native).2 a = orig a := by
  induction ms generalizing off native with
  | nil =>
      rcases h with h | ⟨m, hm, _⟩
      · simpa [unmarshal_loop] using h
      · simp at hm
  | cons m rest ih =>
      obtain ⟨h1, h2⟩ := hp
      simp only [unmarshal_loop]
      apply ih _ _ h2
      by_cases hin : m.offset ≤ a ∧ a < m.offset + m.size
      · left
        rw [memcpy_inside _ _ _ _ _ _ hin.1 hin.2, h1 _ (by omega)]
        congr 1
        omega
      · rcases h with h | ⟨x, hx, hxa⟩
        · left
          rw [memcpy_outside _ _ _ _ _ _ (by omega)]
          exact h
        · rcases List.mem_cons.mp hx with rfl | hx
          · exact absurd hxa hin
          · right
            exact ⟨x, hx, hxa⟩

/-- The unmarshal loop changes no byte outside the member regions. -/
theorem unmarshal_loop_frame (buf : Mem) (ms : List CanonicalMember) (off : Nat)
    (native : Mem) (a : Nat) (h : ¬ Covered ms a) :
    (unmarshal_loop buf ms off native).2 a = native a := by
  induction ms generalizing off native with
  | nil => simp [unmarshal_loop]
  | cons m rest ih =>
      simp only [unmarshal_loop]
      rw [ih]
      · apply memcpy_outside
        by_contra hc
        exact h ⟨m, List.mem_cons_self _ _, by omega⟩
      · intro ⟨x, hx, hxa⟩
        exact h ⟨x, List.mem_cons_of_mem _ hx, hxa⟩

/-! ## Lemmas on the invoker -/

theorem read8 (m : Mem) (off : Nat) : read_bytes m off 8 = [m off, m (off + 1), m (off + 2), m (off + 3), m (off + 4), m (off + 5), m (off + 6), m (off + 7)] := by
  simp [read_bytes, List.range, List.range.loop]

theorem resolve_arg_types_some (tags : Nat → CType) (k i : Nat)
    (h : ∀ j, i ≤ j → j < i + k → ctype_to_ffi_type (tags j) ≠ none) :
    ∃ ts, resolve_arg_types tags i k = some ts := by
  induction k generalizing i with
  | zero => exact ⟨[], rfl⟩
  | succ k ih =>
      obtain ⟨ts, hts⟩ := ih (i + 1) (fun j h1 h2 => h j (by omega) (by omega))
      have hi := h i (Nat.le_refl _) (by omega)
      cases hc : ctype_to_ffi_type (tags i) with
      | none => exact absurd hc hi
      | some t => exact ⟨t :: ts, by simp [resolve_arg_types, hc, hts]⟩

theorem resolve_arg_types_none (tags : Nat → CType) (k i j : Nat)
    (h1 : i ≤ j) (h2 : j < i + k) (hj : ctype_to_ffi_type (tags j) = none) :
    resolve_arg_types tags i k = none := by
  induction k generalizing i with
  | zero => omega
  | succ k ih =>
      simp only [resolve_arg_types]
      cases hc : ctype_to_ffi_type (tags i) with
      | none => rfl
      | some t =>
          have hij : i ≠ j := by
            intro e
            rw [e, hj] at hc
            cases hc
          rw [ih (i + 1) (by omega) (by omega)]

/-! ## Struct marshaler: the specified properties -/

/-- C1. Round trip: for a layout whose `canonical_size` is the sum of its member
sizes and a destination of capacity at least `canonical_size`, `marshal_struct`
followed by `unmarshal_struct` on the packed bytes succeeds (both return
`canonical_size`) and the output instance agrees with the source instance on
every byte of every declared member region, overlapping regions included. -/
theorem marshal_unmarshal_round_trip (L : CanonicalStruct) (N N2 buf : Mem) (cap : Nat)
    (hsize : L.canonical_size = members_size L.members) (hcap : L.canonical_size ≤ cap) :
    ∃ packed out,
      marshal_struct (some L) (some N) (some buf) cap = (L.canonical_size, some packed) ∧
      unmarshal_struct (some L) (some packed) L.canonical_size (some N2)
        = (L.canonical_size, some out) ∧
      ∀ m ∈ L.members, ∀ t, t < m.size → out (m.offset + t) = N (m.offset + t) := by
  refine ⟨(marshal_loop N L.members 0 buf).2,
    (unmarshal_loop (marshal_loop N L.members 0 buf).2 L.members 0 N2).2, ?_, ?_, ?_⟩
  · have h1 : ¬ cap < L.canonical_size := by omega
    simp [marshal_struct, marshal_loop_fst, h1, ← hsize]
  · simp [unmarshal_struct, unmarshal_loop_fst, ← hsize]
  · intro m hm t ht
    apply unmarshal_loop_restores N _ L.members 0 N2 (marshal_loop_packed N L.members 0 buf)
    right
    exact ⟨m, hm, by omega, by omega⟩

/-- The round trip on a layout with overlapping members. -/
theorem marshal_unmarshal_round_trip_witness :
    (overlap_layout.canonical_size = members_size overlap_layout.members ∧
      overlap_layout.canonical_size ≤ 4) ∧
    ∃ packed out,
      marshal_struct (some overlap_layout) (some ramp) (some zeros) 4
        = (overlap_layout.canonical_size, some packed) ∧
      unmarshal_struct (some overlap_layout) (some packed) overlap_layout.canonical_size
        (some zeros) = (overlap_layout.canonical_size, some out) ∧
      ∀ m ∈ overlap_layout.members, ∀ t, t < m.size → out (m.offset + t) = ramp (m.offset + t) :=
  ⟨⟨by decide, by decide⟩,
    marshal_unmarshal_round_trip overlap_layout ramp zeros zeros 4 (by decide) (by decide)⟩

/-- C2. For a layout with consistent metadata and a non-null destination of
capacity at least `canonical_size`, the first `canonical_size` bytes of the
destination after `marshal_struct` are the member slices
`N[offset, offset + size)` concatenated in declared order. -/
theorem marshal_struct_packs_members (L : CanonicalStruct) (N buf : Mem) (cap : Nat)
    (hsize : L.canonical_size = members_size L.members) (hcap : L.canonical_size ≤ cap) :
    ∃ packed,
      (marshal_struct (some L) (some N) (some buf) cap).2 = some packed ∧
      read_bytes packed 0 L.canonical_size =
        (L.members.map (fun m => read_bytes N m.offset m.size)).flatten := by
  refine ⟨(marshal_loop N L.members 0 buf).2, ?_, ?_⟩
  · have h1 : ¬ cap < L.canonical_size := by omega
    simp [marshal_struct, marshal_loop_fst, h1, ← hsize]
  · rw [hsize]
    exact packed_read_bytes N _ L.members 0 (marshal_loop_packed N L.members 0 buf)

/-- The packed image of the overlapping layout over the ramp object. -/
theorem marshal_struct_packs_members_witness :
    (overlap_layout.canonical_size = members_size overlap_layout.members ∧
      overlap_layout.canonical_size ≤ 6) ∧
    ∃ packed,
      (marshal_struct (some overlap_layout) (some ramp) (some zeros) 6).2 = some packed ∧
      read_bytes packed 0 overlap_layout.canonical_size =
        (overlap_layout.members.map (fun m => read_bytes ramp m.offset m.size)).flatten :=
  ⟨⟨by decide, by decide⟩,
    marshal_struct_packs_members overlap_layout ramp zeros 6 (by decide) (by decide)⟩

/-- C3. Packed size additivity: when `marshal_struct` succeeds (returns a
non-zero value) the value returned is the sum of the member sizes, it equals
`canonical_size`, and it is the number of bytes written: the bytes of the
destination below that offset are the member slices of the native instance,
back to back, and the destination is untouched from that offset on. -/
theorem marshal_struct_size_additive (cs : Option CanonicalStruct)
    (native buffer : Option Mem) (cap : Nat)
    (hok : (marshal_struct cs native buffer cap).1 ≠ 0) :
    ∃ L N buf out, cs = some L ∧ native = some N ∧ buffer = some buf ∧
      (marshal_struct cs native buffer cap).2 = some out ∧
      (marshal_struct cs native buffer cap).1 = members_size L.members ∧
      (marshal_struct cs native buffer cap).1 = L.canonical_size ∧
      read_bytes out 0 (marshal_struct cs native buffer cap).1 =
        (L.members.map (fun m => read_bytes N m.offset m.size)).flatten ∧
      ((L.members.map (fun m => read_bytes N m.offset m.size)).flatten).length
        = (marshal_struct cs native buffer cap).1 ∧
      ∀ a, (marshal_struct cs native buffer cap).1 ≤ a → out a = buf a := by
  match cs, native, buffer with
  | some L, some N, some buf =>
      refine ⟨L, N, buf, (marshal_loop N L.members 0 buf).2, rfl, rfl, rfl, ?_⟩
      have hpack := packed_read_bytes N _ L.members 0 (marshal_loop_packed N L.members 0 buf)
      have hlen := congrArg List.length hpack
      simp only [read_bytes, List.length_map, List.length_range] at hlen
      simp only [marshal_struct, marshal_loop_fst, Nat.zero_add] at hok ⊢
      by_cases h1 : cap < L.canonical_size
      · simp [h1] at hok
      · by_cases h2 : members_size L.members = L.canonical_size
        · simp only [h1, h2, if_false, ne_eq, not_true_eq_false, true_and]
          refine ⟨?_, ?_, ?_⟩
          · rw [← h2]
            exact hpack
          · rw [← h2]
            exact hlen.symm
          · intro a ha
            exact marshal_loop_frame N L.members 0 buf a (Or.inr (by omega))
        · simp [h1, h2] at hok
  | none, _, _ => simp [marshal_struct] at hok
  | some _, none, _ => simp [marshal_struct] at hok
  | some _, some _, none => simp [marshal_struct] at hok

/-- A successful marshal of the overlapping layout returns 4 and writes 4 bytes. -/
theorem marshal_struct_size_additive_witness :
    (marshal_struct (some overlap_layout) (some ramp) (some zeros) 4).1 ≠ 0 ∧
    ∃ L N buf out, some overlap_layout = some L ∧ some ramp = some N ∧ some zeros = some buf ∧
      (marshal_struct (some overlap_layout) (some ramp) (some zeros) 4).2 = some out ∧
      (marshal_struct (some overlap_layout) (some ramp) (some zeros) 4).1
        = members_size L.members ∧
      (marshal_struct (some overlap_layout) (some ramp) (some zeros) 4).1 = L.canonical_size ∧
      read_bytes out 0 (marshal_struct (some overlap_layout) (some ramp) (some zeros) 4).1 =
        (L.members.map (fun m => read_bytes N m.offset m.size)).flatten ∧
      ((L.members.map (fun m => read_bytes N m.offset m.size)).flatten).length
        = (marshal_struct (some overlap_layout) (some ramp) (some zeros) 4).1 ∧
      ∀ a, (marshal_struct (some overlap_layout) (some ramp) (some zeros) 4).1 ≤ a →
        out a = buf a :=
  ⟨by decide,
    marshal_struct_size_additive (some overlap_layout) (some ramp) (some zeros) 4 (by decide)⟩

/-- C4. A layout whose `canonical_size` differs from the sum of its member sizes
makes both `marshal_struct` and `unmarshal_struct` return the failure value 0,
whatever the native instance, the buffer and the buffer size are. -/
theorem metadata_mismatch_fails (L : CanonicalStruct)
    (hne : L.canonical_size ≠ members_size L.members)
    (native buffer : Option Mem) (buffer_size : Nat)
    (src dst : Option Mem) (src_size : Nat) :
    (marshal_struct (some L) native buffer buffer_size).1 = 0 ∧
    (unmarshal_struct (some L) src src_size dst).1 = 0 := by
  have hne2 : ¬ members_size L.members = L.canonical_size := fun h => hne h.symm
  constructor
  · match native, buffer with
    | some N, some buf =>
        simp only [marshal_struct, marshal_loop_fst, Nat.zero_add]
        split <;> simp [hne2]
    | none, _ => simp [marshal_struct]
    | some _, none => simp [marshal_struct]
  · match src, dst with
    | some b, some N =>
        simp only [unmarshal_struct, unmarshal_loop_fst, Nat.zero_add]
        split <;> simp [hne2]
    | none, _ => simp [unmarshal_struct]
    | some _, none => simp [unmarshal_struct]

/-- Both directions fail on the layout that declares 2 bytes for a 1-byte member. -/
theorem metadata_mismatch_fails_witness :
    short_layout.canonical_size ≠ members_size short_layout.members ∧
    (marshal_struct (some short_layout) (some ramp) (some zeros) 2).1 = 0 ∧
    (unmarshal_struct (some short_layout) (some ramp) 2 (some zeros)).1 = 0 :=
  ⟨by decide,
    metadata_mismatch_fails short_layout (by decide) (some ramp) (some zeros) 2
      (some ramp) (some zeros) 2⟩

/-- C5. Undersized destination rejected: with `buffer_size < canonical_size`,
`marshal_struct` returns 0 and the destination buffer is exactly as before. -/
theorem marshal_undersized_rejected (L : CanonicalStruct) (native buffer : Option Mem)
    (buffer_size : Nat) (h : buffer_size < L.canonical_size) :
    marshal_struct (some L) native buffer buffer_size = (0, buffer) := by
  match native, buffer with
  | some N, some buf => simp [marshal_struct, h]
  | none, _ => simp [marshal_struct]
  | some _, none => simp [marshal_struct]

/-- A 3-byte destination is rejected for the 4-byte overlapping layout. -/
theorem marshal_undersized_rejected_witness :
    3 < overlap_layout.canonical_size ∧
    marshal_struct (some overlap_layout) (some ramp) (some zeros) 3 = (0, some zeros) :=
  ⟨by decide, marshal_undersized_rejected overlap_layout (some ramp) (some zeros) 3 (by decide)⟩

/-- C6. Exact-size unmarshal: with a source length different from
`canonical_size`, larger or smaller, `unmarshal_struct` returns 0 and the
native output instance is exactly as before. -/
theorem unmarshal_wrong_size_rejected (L : CanonicalStruct) (buffer native : Option Mem)
    (buffer_size : Nat) (h : buffer_size ≠ L.canonical_size) :
    unmarshal_struct (some L) buffer buffer_size native = (0, native) := by
  match buffer, native with
  | some b, some N => simp [unmarshal_struct, h]
  | none, _ => simp [unmarshal_struct]
  | some _, none => simp [unmarshal_struct]

/-- A 5-byte source is rejected for the 4-byte overlapping layout. -/
theorem unmarshal_wrong_size_rejected_witness :
    5 ≠ overlap_layout.canonical_size ∧
    unmarshal_struct (some overlap_layout) (some ramp) 5 (some zeros) = (0, some zeros) :=
  ⟨by decide,
    unmarshal_wrong_size_rejected overlap_layout (some ramp) (some zeros) 5 (by decide)⟩

/-- C7, as stated, fails: on the layout that declares 2 bytes for one 1-byte
member, with a 2-byte destination of zeros, `marshal_struct` returns 0 after
the loop has already stored the member byte 10 at offset 0 of the destination. -/
theorem marshal_mismatch_leaves_written_bytes :
    (marshal_loop ramp short_layout.members 0 zeros).1 ≠ short_layout.canonical_size ∧
    (marshal_struct (some short_layout) (some ramp) (some zeros) 2).1 = 0 ∧
    (marshal_struct (some short_layout) (some ramp) (some zeros) 2).2 ≠ some zeros ∧
    ((marshal_struct (some short_layout) (some ramp) (some zeros) 2).2.map (fun b => b 0))
      = some 10 ∧
    zeros 0 = 0 := by
  refine ⟨by decide, by decide, ?_, by decide, rfl⟩
  intro h
  have h2 : ((marshal_struct (some short_layout) (some ramp) (some zeros) 2).2.map
      (fun b => b 0)) = some 0 := by rw [h]; rfl
  revert h2
  decide

/-- C7, amended. When the running total of member sizes differs from
`canonical_size`, `marshal_struct` returns 0 and the destination is unchanged
at every offset at or beyond the running total (the bytes below it may already
hold member data). -/
theorem marshal_mismatch_zero_return (L : CanonicalStruct) (N buf : Mem) (buffer_size : Nat)
    (hne : (marshal_loop N L.members 0 buf).1 ≠ L.canonical_size) :
    ∃ out, marshal_struct (some L) (some N) (some buf) buffer_size = (0, some out) ∧
      ∀ a, (marshal_loop N L.members 0 buf).1 ≤ a → out a = buf a := by
  by_cases h1 : buffer_size < L.canonical_size
  · exact ⟨buf, by simp [marshal_struct, h1], fun _ _ => rfl⟩
  · refine ⟨(marshal_loop N L.members 0 buf).2, by simp [marshal_struct, h1, hne], ?_⟩
    intro a ha
    rw [marshal_loop_fst] at ha
    exact marshal_loop_frame N L.members 0 buf a (Or.inr ha)

/-- The amended C7 on the layout that declares 2 bytes for a 1-byte member. -/
theorem marshal_mismatch_zero_return_witness :
    (marshal_loop ramp short_layout.members 0 zeros).1 ≠ short_layout.canonical_size ∧
    ∃ out, marshal_struct (some short_layout) (some ramp) (some zeros) 2 = (0, some out) ∧
      ∀ a, (marshal_loop ramp short_layout.members 0 zeros).1 ≤ a → out a = zeros a :=
  ⟨by decide, marshal_mismatch_zero_return short_layout ramp zeros 2 (by decide)⟩

/-! ## Function invoker: the specified properties -/

/-- C9. Void return: for a descriptor whose return type is VOID and whose
argument tags all resolve, when interface preparation and the allocations
succeed, `call_function` returns 0 and the result object is exactly what it
was before the call. -/
theorem call_function_void (host : Host) (cf : CanonicalFunction) (fn : NativeFn)
    (args_buffer : Mem) (res : CanonicalResult)
    (hvoid : cf.return_type = .C_TYPE_VOID)
    (htags : ∀ i : Nat, (i : Int) < cf.num_args → ctype_to_ffi_type (tag_at host cf i) ≠ none)
    (hprep : ∀ ts, host.prep_cif_ok cf.num_args .ffi_type_void ts = true)
    (hmalloc : ∀ w n, w ≠ Scratch.rc_val → host.malloc_ok w n = true) :
    (call_function host (some cf) (some fn) args_buffer (some res)).ret = 0 ∧
    (call_function host (some cf) (some fn) args_buffer (some res)).result = some res := by
  obtain ⟨ts, hts⟩ := resolve_arg_types_some (tag_at host cf) cf.num_args.toNat 0
    (fun j _ h2 => htags j (by omega))
  simp [call_function, hvoid, ctype_to_ffi_type, hts, hprep, hmalloc, ffi_call]

/-- The test `test_print_message`: `(POINTER) -> VOID` succeeds and keeps the result. -/
theorem call_function_void_witness :
    (print_message_meta.return_type = .C_TYPE_VOID ∧
      (∀ i : Nat, (i : Int) < print_message_meta.num_args →
        ctype_to_ffi_type (tag_at nominal_host print_message_meta i) ≠ none)) ∧
    (call_function nominal_host (some print_message_meta) (some native_void) zeros
        (some (.ptr_val 7))).ret = 0 ∧
    (call_function nominal_host (some print_message_meta) (some native_void) zeros
        (some (.ptr_val 7))).result = some (.ptr_val 7) :=
  have htags : ∀ i : Nat, (i : Int) < print_message_meta.num_args →
      ctype_to_ffi_type (tag_at nominal_host print_message_meta i) ≠ none := by
    intro i hi
    have h0 : i = 0 := by
      simp only [print_message_meta] at hi
      omega
    subst h0
    decide
  ⟨⟨rfl, htags⟩,
    call_function_void nominal_host print_message_meta native_void zeros (.ptr_val 7) rfl htags
      (fun _ => rfl) (fun _ _ _ => rfl)⟩

/-- C10. Unknown type tag rejected: when the return type tag, or the tag of one
of the `num_args` arguments, is outside the known set, `call_function` returns
-1, performs no foreign call, and leaves the result object unchanged. -/
theorem call_function_unknown_tag (host : Host) (cf : CanonicalFunction)
    (func_ptr : Option NativeFn) (args_buffer : Mem) (result : Option CanonicalResult)
    (h : (∃ r, cf.return_type = .unknown r) ∨
      ∃ (i : Nat) (r : Nat), (i : Int) < cf.num_args ∧ cf.arg_types[i]? = some (.unknown r)) :
    (call_function host (some cf) func_ptr args_buffer result).ret = -1 ∧
    (∀ bytes ptrs,
      Event.ffi_call bytes ptrs ∉ (call_function host (some cf) func_ptr args_buffer result).trace) ∧
    (call_function host (some cf) func_ptr args_buffer result).result = result := by
  match func_ptr, result with
  | none, _ => simp [call_function]
  | some _, none => simp [call_function]
  | some fn, some res =>
      cases hr : ctype_to_ffi_type cf.return_type with
      | none => simp [call_function, hr]
      | some rt =>
          have hres : resolve_arg_types (tag_at host cf) 0 cf.num_args.toNat = none := by
            rcases h with ⟨r, h⟩ | ⟨i, r, hi, ht⟩
            · rw [h] at hr
              cases hr
            · apply resolve_arg_types_none _ _ 0 i (Nat.zero_le _) (by omega)
              simp [tag_at, ht, ctype_to_ffi_type]
          simp only [call_function, hr, hres]
          split <;> simp
/-- A descriptor with an unknown second argument tag is rejected without a call. -/
theorem call_function_unknown_tag_witness :
    ((∃ r, bad_meta.return_type = .unknown r) ∨
      ∃ (i : Nat) (r : Nat), (i : Int) < bad_meta.num_args ∧
        bad_meta.arg_types[i]? = some (.unknown r)) ∧
    (call_function nominal_host (some bad_meta) (some native_add) zeros
        (some (.long_val 3))).ret = -1 ∧
    (∀ bytes ptrs, Event.ffi_call bytes ptrs ∉
      (call_function nominal_host (some bad_meta) (some native_add) zeros
        (some (.long_val 3))).trace) ∧
    (call_function nominal_host (some bad_meta) (some native_add) zeros
        (some (.long_val 3))).result = some (.long_val 3) :=
  ⟨Or.inr ⟨1, 99, by decide, rfl⟩,
    call_function_unknown_tag nominal_host bad_meta (some native_add) zeros (some (.long_val 3))
      (Or.inr ⟨1, 99, by decide, rfl⟩)⟩

/-! ## Type descriptor table: the specified properties -/

/-- C16. Type table totality: each of the eight tags CHAR, SHORT, INT, LONG,
FLOAT, DOUBLE, POINTER, STRUCT has a descriptor and a positive canonical size;
the canonical size is 0 for VOID and for every tag outside the known set; and
`ctype_to_ffi_type` returns `NULL` exactly for the tags outside the nine known
ones. -/
theorem type_table_total (t : CType) :
    ((t = .C_TYPE_CHAR ∨ t = .C_TYPE_SHORT ∨ t = .C_TYPE_INT ∨ t = .C_TYPE_LONG ∨
        t = .C_TYPE_FLOAT ∨ t = .C_TYPE_DOUBLE ∨ t = .C_TYPE_POINTER ∨ t = .C_TYPE_STRUCT) ↔
      ((ctype_to_ffi_type t).isSome = true ∧ 0 < get_canonical_type_size t)) ∧
    ((t = .C_TYPE_VOID ∨ ∃ r, t = .unknown r) ↔ get_canonical_type_size t = 0) ∧
    (ctype_to_ffi_type t = none ↔ ∃ r, t = .unknown r) := by
  cases t <;> simp [ctype_to_ffi_type, get_canonical_type_size]

/-- C17. Struct-by-pointer policy: STRUCT resolves to a descriptor, namely the
pointer descriptor `ffi_type_pointer` that POINTER resolves to; it has the
canonical size of POINTER, 8 bytes; a STRUCT return slot is stored in the
pointer member of the result, as the address held in the 8 bytes of the slot,
exactly as a POINTER return slot is; a whole call with return tag STRUCT has
the outcome of the same call with return tag POINTER; and a call of a function
`() -> STRUCT` that returns the address 4660 returns 0 with 4660 in the
pointer member. -/
theorem struct_is_pointer (host : Host) (name : String) (num_args : Int)
    (arg_types : List CType) (func_ptr : Option NativeFn) (args_buffer : Mem)
    (slot : Mem) (res : CanonicalResult) (result : Option CanonicalResult) :
    ctype_to_ffi_type .C_TYPE_STRUCT = some .ffi_type_pointer ∧
    ctype_to_ffi_type .C_TYPE_POINTER = some .ffi_type_pointer ∧
    ctype_to_ffi_type .C_TYPE_STRUCT = ctype_to_ffi_type .C_TYPE_POINTER ∧
    get_canonical_type_size .C_TYPE_STRUCT = 8 ∧
    get_canonical_type_size .C_TYPE_STRUCT = get_canonical_type_size .C_TYPE_POINTER ∧
    store_result .C_TYPE_STRUCT slot res = .ptr_val (le_value (read_bytes slot 0 8)) ∧
    store_result .C_TYPE_STRUCT slot res = store_result .C_TYPE_POINTER slot res ∧
    (∃ addr, store_result .C_TYPE_STRUCT slot res = .ptr_val addr) ∧
    call_function host (some ⟨name, .C_TYPE_STRUCT, num_args, arg_types⟩) func_ptr
        args_buffer result =
      call_function host (some ⟨name, .C_TYPE_POINTER, num_args, arg_types⟩) func_ptr
        args_buffer result ∧
    (call_function nominal_host (some struct_return_meta) (some native_address) zeros
      (some (.long_val 0))).ret = 0 ∧
    (call_function nominal_host (some struct_return_meta) (some native_address) zeros
      (some (.long_val 0))).result = some (.ptr_val 4660) := by
  refine ⟨rfl, rfl, rfl, rfl, rfl, rfl, rfl, ⟨_, rfl⟩, ?_, by decide, by decide⟩
  match func_ptr, result with
  | none, _ => rfl
  | some _, none => rfl
  | some fn, some r =>
      have htag : tag_at host ⟨name, .C_TYPE_STRUCT, num_args, arg_types⟩ =
          tag_at host ⟨name, .C_TYPE_POINTER, num_args, arg_types⟩ := rfl
      simp [call_function, ctype_to_ffi_type, htag, store_result]

/-! ## Struct marshaler: frame and reverse round trip -/

/-- C19. Unmarshal frame: whatever the source buffer, its declared size and the
outcome of the call, `unmarshal_struct` leaves every byte of the output
instance that lies outside all member regions at its previous value. -/
theorem unmarshal_struct_frame (L : CanonicalStruct) (buffer : Option Mem)
    (buffer_size : Nat) (N : Mem) :
    ∃ out, (unmarshal_struct (some L) buffer buffer_size (some N)).2 = some out ∧
      ∀ a, ¬ Covered L.members a → out a = N a := by
  match buffer with
  | none => exact ⟨N, rfl, fun _ _ => rfl⟩
  | some b =>
      by_cases h1 : buffer_size ≠ L.canonical_size
      · exact ⟨N, by simp [unmarshal_struct, h1], fun _ _ => rfl⟩
      · refine ⟨(unmarshal_loop b L.members 0 N).2, ?_, ?_⟩
        · simp only [unmarshal_struct, h1, if_false]
          split <;> rfl
        · intro a ha
          exact unmarshal_loop_frame b L.members 0 N a ha

theorem packed_unique (native b1 b2 : Mem) (ms : List CanonicalMember) (off : Nat)
    (h1 : Packed native b1 ms off) (h2 : Packed native b2 ms off) (a : Nat)
    (ha1 : off ≤ a) (ha2 : a < off + members_size ms) : b1 a = b2 a := by
  induction ms generalizing off with
  | nil => simp [members_size] at ha2; omega
  | cons m rest ih =>
      obtain ⟨p1, q1⟩ := h1
      obtain ⟨p2, q2⟩ := h2
      simp only [members_size, List.map_cons, List.sum_cons] at ha2
      by_cases hlt : a < off + m.size
      · have e : a = off + (a - off) := by omega
        rw [e, p1 _ (by omega), p2 _ (by omega)]
      · apply ih (off + m.size) q1 q2 (by omega)
        simp only [members_size]
        omega

/-- With pairwise disjoint member regions the unmarshal loop leaves an
instance of which the buffer is the packed image. -/
theorem unmarshal_loop_packed (buf : Mem) (ms : List CanonicalMember) (off : Nat) (native : Mem)
    (hd : ms.Pairwise regions_disjoint) :
    Packed (unmarshal_loop buf ms off native).2 buf ms off := by
  induction ms generalizing off native with
  | nil => trivial
  | cons m rest ih =>
      rw [List.pairwise_cons] at hd
      simp only [unmarshal_loop]
      refine ⟨?_, ih _ _ hd.2⟩
      intro t ht
      rw [unmarshal_loop_frame]
      · rw [memcpy_inside _ _ _ _ _ _ (by omega) (by omega)]
        congr 1
        omega
      · intro ⟨x, hx, hxa⟩
        exact hd.1 x hx (m.offset + t) ⟨by omega, hxa⟩

/-- C20. Reverse round trip: for a layout with consistent metadata and pairwise
disjoint member regions and a packed buffer `B` of `canonical_size` bytes,
`unmarshal_struct` followed by `marshal_struct` succeeds (both return
`canonical_size`) and reproduces the bytes of `B`; and on the layout with the
overlapping members `[0, 2)` and `[1, 3)` the bytes that come back differ. -/
theorem unmarshal_marshal_round_trip (L : CanonicalStruct) (B N buf : Mem)
    (hsize : L.canonical_size = members_size L.members)
    (hdisj : L.members.Pairwise regions_disjoint) :
    (∃ inst out,
      unmarshal_struct (some L) (some B) L.canonical_size (some N)
        = (L.canonical_size, some inst) ∧
      marshal_struct (some L) (some inst) (some buf) L.canonical_size
        = (L.canonical_size, some out) ∧
      read_bytes out 0 L.canonical_size = read_bytes B 0 L.canonical_size) ∧
    (overlap_layout.canonical_size = members_size overlap_layout.members ∧
      ¬ overlap_layout.members.Pairwise regions_disjoint ∧
      ∃ inst out,
        unmarshal_struct (some overlap_layout) (some ramp) overlap_layout.canonical_size
          (some zeros) = (overlap_layout.canonical_size, some inst) ∧
        marshal_struct (some overlap_layout) (some inst) (some zeros)
          overlap_layout.canonical_size = (overlap_layout.canonical_size, some out) ∧
        read_bytes out 0 overlap_layout.canonical_size
          ≠ read_bytes ramp 0 overlap_layout.canonical_size) := by
  constructor
  · refine ⟨(unmarshal_loop B L.members 0 N).2,
      (marshal_loop (unmarshal_loop B L.members 0 N).2 L.members 0 buf).2, ?_, ?_, ?_⟩
    · simp [unmarshal_struct, unmarshal_loop_fst, ← hsize]
    · simp [marshal_struct, marshal_loop_fst, ← hsize]
    · simp only [read_bytes]
      apply List.map_congr_left
      intro k hk
      have hk2 := List.mem_range.mp hk
      exact packed_unique (unmarshal_loop B L.members 0 N).2 _ _ L.members 0
        (marshal_loop_packed _ L.members 0 buf) (unmarshal_loop_packed B L.members 0 N hdisj)
        (0 + k) (by omega) (by omega)
  · refine ⟨by decide, ?_, (unmarshal_loop ramp overlap_layout.members 0 zeros).2,
      (marshal_loop (unmarshal_loop ramp overlap_layout.members 0 zeros).2
        overlap_layout.members 0 zeros).2, ?_, ?_, by decide⟩
    · intro h
      simp only [overlap_layout, List.pairwise_cons] at h
      exact h.1 _ (List.mem_singleton.mpr rfl) 1 (by decide)
    · simp [unmarshal_struct, unmarshal_loop_fst, overlap_layout, members_size]
    · simp [marshal_struct, marshal_loop_fst, overlap_layout, members_size]

/-- The reverse round trip on the layout with members at offsets 0 and 4. -/
theorem unmarshal_marshal_round_trip_witness :
    (pair_layout.canonical_size = members_size pair_layout.members ∧
      pair_layout.members.Pairwise regions_disjoint) ∧
    ∃ inst out,
      unmarshal_struct (some pair_layout) (some ramp) pair_layout.canonical_size (some zeros)
        = (pair_layout.canonical_size, some inst) ∧
      marshal_struct (some pair_layout) (some inst) (some zeros) pair_layout.canonical_size
        = (pair_layout.canonical_size, some out) ∧
      read_bytes out 0 pair_layout.canonical_size = read_bytes ramp 0 pair_layout.canonical_size :=
  have hd : pair_layout.members.Pairwise regions_disjoint := by
    simp only [pair_layout, List.pairwise_cons]
    refine ⟨?_, ?_, List.Pairwise.nil⟩
    · intro x hx a
      rw [List.mem_singleton.mp hx]
      simp only
      omega
    · intro x hx
      simp at hx
  ⟨⟨by decide, hd⟩, (unmarshal_marshal_round_trip pair_layout ramp zeros zeros (by decide) hd).1⟩

/-! ## Function invoker: allocations, argument slots and the return slot -/

/-- C11. Scratch release on every exit path: for every host (every pattern of
allocation and preparation failures), every descriptor, function pointer,
argument buffer and result pointer, replaying the events of `call_function`
from an empty heap never frees a block that is not live, never allocates a
block twice, and ends with no live block: each scratch allocation that
succeeded was freed exactly once. -/
theorem call_function_releases_scratch (host : Host) (cf : Option CanonicalFunction)
    (func_ptr : Option NativeFn) (args_buffer : Mem) (result : Option CanonicalResult) :
    heap_run (call_function host cf func_ptr args_buffer result).trace [] = some [] := by
  match cf, func_ptr, result with
  | none, _, _ => rfl
  | some _, none, _ => rfl
  | some _, some _, none => rfl
  | some cf, some fn, some res =>
      simp only [call_function]
      by_cases hv : cf.return_type = .C_TYPE_VOID
      · repeat' split
        all_goals simp_all [heap_run, heap_step]
      · repeat' split
        all_goals simp_all [heap_run, heap_step]

theorem read_bytes_length (m : Mem) (off n : Nat) : (read_bytes m off n).length = n := by
  simp [read_bytes]

theorem read_bytes_append (m : Mem) (off a b : Nat) :
    read_bytes m off (a + b) = read_bytes m off a ++ read_bytes m (off + a) b := by
  simp only [read_bytes]
  rw [List.range_add, List.map_append, List.map_map]
  congr 1
  apply List.map_congr_left
  intro t _
  simp [Nat.add_assoc]

/-- A slice of a byte read is the byte read of the slice. -/
theorem read_bytes_slice (m : Mem) (a s T : Nat) (h : a + s ≤ T) :
    ((read_bytes m 0 T).drop a).take s = read_bytes m a s := by
  obtain ⟨r, rfl⟩ : ∃ r, T = a + (s + r) := ⟨T - a - s, by omega⟩
  rw [read_bytes_append, read_bytes_append]
  rw [List.drop_left' (read_bytes_length m 0 a)]
  simp only [Nat.zero_add]
  rw [List.take_left' (read_bytes_length m a s)]

theorem read_bytes_memcpy (dst src : Mem) (n : Nat) :
    read_bytes (memcpy dst 0 src 0 n) 0 n = read_bytes src 0 n := by
  simp only [read_bytes]
  apply List.map_congr_left
  intro k hk
  have hk2 := List.mem_range.mp hk
  rw [memcpy_inside _ _ _ _ _ _ (by omega) (by omega)]
  simp

theorem arg_offset_succ (tags : Nat → CType) (i : Nat) :
    arg_offset tags (i + 1) = arg_offset tags i + get_canonical_type_size (tags i) := by
  simp [arg_offset, List.range_succ]

theorem arg_offset_mono (tags : Nat → CType) (i j : Nat) (h : i ≤ j) :
    arg_offset tags i ≤ arg_offset tags j := by
  induction j with
  | zero =>
      have e : i = 0 := by omega
      rw [e]
  | succ j ih =>
      by_cases hj : i = j + 1
      · rw [hj]
      · have := ih (by omega)
        rw [arg_offset_succ]
        omega

theorem sum_arg_sizes_eq (tags : Nat → CType) (k i : Nat) :
    sum_arg_sizes tags i k (arg_offset tags i) = arg_offset tags (i + k) := by
  induction k generalizing i with
  | zero => rfl
  | succ k ih =>
      simp only [sum_arg_sizes]
      rw [← arg_offset_succ, ih (i + 1)]
      congr 1
      omega

theorem set_arg_pointers_eq (tags : Nat → CType) (k i : Nat) :
    set_arg_pointers tags i k (arg_offset tags i)
      = (List.range k).map (fun j => arg_offset tags (i + j)) := by
  induction k generalizing i with
  | zero => rfl
  | succ k ih =>
      simp only [set_arg_pointers]
      rw [← arg_offset_succ, ih (i + 1), List.range_succ_eq_map]
      simp only [List.map_cons, List.map_map, Nat.add_zero]
      congr 1
      apply List.map_congr_left
      intro j _
      simp only [Function.comp]
      congr 1
      omega

/-- C12, as stated, fails: the descriptor that declares one argument but lists
two tags is not rejected; on a host where allocations and preparation succeed
`call_function` returns 0 and performs the foreign call. -/
theorem call_function_accepts_short_count :
    short_count_meta.num_args ≠ (short_count_meta.arg_types.length : Int) ∧
    (call_function nominal_host (some short_count_meta) (some native_add) zeros
      (some (.long_val 3))).ret = 0 ∧
    ((call_function nominal_host (some short_count_meta) (some native_add) zeros
      (some (.long_val 3))).trace.any is_ffi_call) = true := by
  refine ⟨by decide, by decide, ?_⟩
  simp [call_function, short_count_meta, nominal_host, ctype_to_ffi_type, resolve_arg_types,
    tag_at, is_ffi_call]

/-- On the path where every tag resolves and the host cooperates, the call
returns 0 and hands the foreign call the first `T` bytes of the argument
buffer together with the canonical offsets of the arguments. -/
theorem call_function_performs_call (host : Host) (cf : CanonicalFunction) (fn : NativeFn)
    (args_buffer : Mem) (res : CanonicalResult)
    (hret : ctype_to_ffi_type cf.return_type ≠ none)
    (htags : ∀ i : Nat, (i : Int) < cf.num_args → ctype_to_ffi_type (tag_at host cf i) ≠ none)
    (hprep : ∀ n r ts, host.prep_cif_ok n r ts = true)
    (hmalloc : ∀ w n, host.malloc_ok w n = true) :
    (call_function host (some cf) (some fn) args_buffer (some res)).ret = 0 ∧
    Event.ffi_call
        (read_bytes args_buffer 0 (arg_offset (tag_at host cf) cf.num_args.toNat))
        ((List.range cf.num_args.toNat).map (arg_offset (tag_at host cf)))
      ∈ (call_function host (some cf) (some fn) args_buffer (some res)).trace := by
  obtain ⟨ts, hts⟩ := resolve_arg_types_some (tag_at host cf) cf.num_args.toNat 0
    (fun j _ h2 => htags j (by omega))
  have h1 := sum_arg_sizes_eq (tag_at host cf) cf.num_args.toNat 0
  have h2 := set_arg_pointers_eq (tag_at host cf) cf.num_args.toNat 0
  simp only [Nat.zero_add] at h1 h2
  have h0 : arg_offset (tag_at host cf) 0 = 0 := rfl
  rw [h0] at h1 h2
  cases hr : ctype_to_ffi_type cf.return_type with
  | none => exact absurd hr hret
  | some rt =>
      simp only [call_function, hr, hts, hprep, hmalloc, h1, h2, read_bytes_memcpy]
      by_cases hv : cf.return_type = .C_TYPE_VOID <;> simp [hv]

/-- C12, amended. `call_function` never compares the declared argument count
with the length of the argument type list: when the declared count is smaller
than the length of the list, the return tag and the first `num_args` argument
tags resolve, and interface preparation and the allocations succeed, it
returns 0 and performs the foreign call with `num_args` argument pointers. -/
theorem call_function_ignores_extra_tags (host : Host) (cf : CanonicalFunction) (fn : NativeFn)
    (args_buffer : Mem) (res : CanonicalResult)
    (hcount : cf.num_args < (cf.arg_types.length : Int))
    (hret : ctype_to_ffi_type cf.return_type ≠ none)
    (htags : ∀ (i : Nat) (t : CType), (i : Int) < cf.num_args → cf.arg_types[i]? = some t →
      ctype_to_ffi_type t ≠ none)
    (hprep : ∀ n r ts, host.prep_cif_ok n r ts = true)
    (hmalloc : ∀ w n, host.malloc_ok w n = true) :
    (call_function host (some cf) (some fn) args_buffer (some res)).ret = 0 ∧
    ∃ bytes ptrs,
      Event.ffi_call bytes ptrs
        ∈ (call_function host (some cf) (some fn) args_buffer (some res)).trace ∧
      ptrs.length = cf.num_args.toNat := by
  have htags2 : ∀ i : Nat, (i : Int) < cf.num_args →
      ctype_to_ffi_type (tag_at host cf i) ≠ none := by
    intro i hi
    have hlen : i < cf.arg_types.length := by omega
    have hget := List.getElem?_eq_getElem hlen
    simp only [tag_at, hget]
    exact htags i _ hi hget
  have h := call_function_performs_call host cf fn args_buffer res hret htags2 hprep hmalloc
  exact ⟨h.1, _, _, h.2, by simp⟩

/-- The amended C12 on the descriptor that declares one argument and lists two. -/
theorem call_function_ignores_extra_tags_witness :
    (short_count_meta.num_args < (short_count_meta.arg_types.length : Int) ∧
      ctype_to_ffi_type short_count_meta.return_type ≠ none ∧
      (∀ (i : Nat) (t : CType), (i : Int) < short_count_meta.num_args →
        short_count_meta.arg_types[i]? = some t → ctype_to_ffi_type t ≠ none)) ∧
    (call_function nominal_host (some short_count_meta) (some native_add) zeros
      (some (.long_val 3))).ret = 0 ∧
    ∃ bytes ptrs,
      Event.ffi_call bytes ptrs
        ∈ (call_function nominal_host (some short_count_meta) (some native_add) zeros
            (some (.long_val 3))).trace ∧
      ptrs.length = short_count_meta.num_args.toNat :=
  have htags : ∀ (i : Nat) (t : CType), (i : Int) < short_count_meta.num_args →
      short_count_meta.arg_types[i]? = some t → ctype_to_ffi_type t ≠ none := by
    intro i t hi ht
    have h0 : i = 0 := by
      simp only [short_count_meta] at hi
      omega
    subst h0
    simp only [short_count_meta, List.getElem?_cons_zero, Option.some.injEq] at ht
    subst ht
    decide
  ⟨⟨by decide, by decide, htags⟩,
    call_function_ignores_extra_tags nominal_host short_count_meta native_add zeros
      (.long_val 3) (by decide) (by decide) htags (fun _ _ _ => rfl) (fun _ _ => rfl)⟩

/-- C13. Argument rehoming: for a descriptor whose tags resolve (on a host where
preparation and the allocations succeed) the scratch storage handed to the
foreign call is the first `T` bytes of the argument buffer, `T` being the sum
of the canonical sizes of the arguments; the argument pointers are, in
declaration order, the scratch offsets `off_i`, the sum of the canonical sizes
of the arguments before `i`; and the slot of argument `i` lies inside the
scratch storage and holds the buffer bytes `[off_i, off_i + size_i)`. -/
theorem call_function_rehomes_arguments (host : Host) (cf : CanonicalFunction) (fn : NativeFn)
    (args_buffer : Mem) (res : CanonicalResult)
    (hret : ctype_to_ffi_type cf.return_type ≠ none)
    (htags : ∀ i : Nat, (i : Int) < cf.num_args → ctype_to_ffi_type (tag_at host cf i) ≠ none)
    (hprep : ∀ n r ts, host.prep_cif_ok n r ts = true)
    (hmalloc : ∀ w n, host.malloc_ok w n = true) :
    ∃ scratch ptrs,
      Event.ffi_call scratch ptrs
        ∈ (call_function host (some cf) (some fn) args_buffer (some res)).trace ∧
      scratch = read_bytes args_buffer 0 (arg_offset (tag_at host cf) cf.num_args.toNat) ∧
      ptrs = (List.range cf.num_args.toNat).map (arg_offset (tag_at host cf)) ∧
      ∀ i, i < cf.num_args.toNat →
        arg_offset (tag_at host cf) i + get_canonical_type_size (tag_at host cf i)
          ≤ arg_offset (tag_at host cf) cf.num_args.toNat ∧
        (scratch.drop (arg_offset (tag_at host cf) i)).take
            (get_canonical_type_size (tag_at host cf i))
          = read_bytes args_buffer (arg_offset (tag_at host cf) i)
              (get_canonical_type_size (tag_at host cf i)) := by
  have h := call_function_performs_call host cf fn args_buffer res hret htags hprep hmalloc
  refine ⟨_, _, h.2, rfl, rfl, ?_⟩
  intro i hi
  have hle : arg_offset (tag_at host cf) i + get_canonical_type_size (tag_at host cf i)
      ≤ arg_offset (tag_at host cf) cf.num_args.toNat := by
    rw [← arg_offset_succ]
    exact arg_offset_mono _ _ _ (by omega)
  exact ⟨hle, read_bytes_slice args_buffer _ _ _ hle⟩

/-- The rehoming of the two `int` arguments of `test_add`. -/
theorem call_function_rehomes_arguments_witness :
    (ctype_to_ffi_type add_meta.return_type ≠ none ∧
      (∀ i : Nat, (i : Int) < add_meta.num_args →
        ctype_to_ffi_type (tag_at nominal_host add_meta i) ≠ none)) ∧
    ∃ scratch ptrs,
      Event.ffi_call scratch ptrs
        ∈ (call_function nominal_host (some add_meta) (some native_add) (add_args 5 10)
            (some (.long_val 0))).trace ∧
      scratch = read_bytes (add_args 5 10) 0
        (arg_offset (tag_at nominal_host add_meta) add_meta.num_args.toNat) ∧
      ptrs = (List.range add_meta.num_args.toNat).map (arg_offset (tag_at nominal_host add_meta)) ∧
      ∀ i, i < add_meta.num_args.toNat →
        arg_offset (tag_at nominal_host add_meta) i
            + get_canonical_type_size (tag_at nominal_host add_meta i)
          ≤ arg_offset (tag_at nominal_host add_meta) add_meta.num_args.toNat ∧
        (scratch.drop (arg_offset (tag_at nominal_host add_meta) i)).take
            (get_canonical_type_size (tag_at nominal_host add_meta i))
          = read_bytes (add_args 5 10) (arg_offset (tag_at nominal_host add_meta) i)
              (get_canonical_type_size (tag_at nominal_host add_meta i)) :=
  have htags : ∀ i : Nat, (i : Int) < add_meta.num_args →
      ctype_to_ffi_type (tag_at nominal_host add_meta i) ≠ none := by
    intro i hi
    have h0 : i = 0 ∨ i = 1 := by
      simp only [add_meta] at hi
      omega
    rcases h0 with h0 | h0 <;> subst h0 <;> decide
  ⟨⟨by decide, htags⟩,
    call_function_rehomes_arguments nominal_host add_meta native_add (add_args 5 10)
      (.long_val 0) (by decide) htags (fun _ _ _ => rfl) (fun _ _ => rfl)⟩

/-- C14 fails on the code: for `(CHAR, INT) -> INT` the foreign call receives
the argument pointers at scratch offsets 0 and 1, and for
`(INT, DOUBLE) -> DOUBLE` at offsets 0 and 4; the second offset is not a
multiple of the canonical size (4, respectively 8) of the second argument. -/
theorem arg_pointers_not_aligned :
    call_pointers (call_function nominal_host (some char_int_meta) (some native_add) zeros
      (some (.long_val 0))).trace = [[0, 1]] ∧
    1 % get_canonical_type_size .C_TYPE_INT ≠ 0 ∧
    call_pointers (call_function nominal_host (some int_double_meta) (some native_add) zeros
      (some (.long_val 0))).trace = [[0, 4]] ∧
    4 % get_canonical_type_size .C_TYPE_DOUBLE ≠ 0 := by
  refine ⟨?_, by decide, ?_, by decide⟩
  · simp [call_function, char_int_meta, nominal_host, ctype_to_ffi_type, resolve_arg_types,
      tag_at, call_pointers, set_arg_pointers, get_canonical_type_size]
  · simp [call_function, int_double_meta, nominal_host, ctype_to_ffi_type, resolve_arg_types,
      tag_at, call_pointers, set_arg_pointers, get_canonical_type_size]

/-- C15, as stated, fails: for the descriptor whose second argument tag is
unknown, `call_function` returns -1 only after it has allocated (and then
released) the argument descriptor array. -/
theorem unknown_arg_tag_allocates_first :
    bad_meta.arg_types[1]? = some (.unknown 99) ∧
    ctype_to_ffi_type (.unknown 99) = none ∧
    (call_function nominal_host (some bad_meta) (some native_add) zeros
      (some (.long_val 3))).ret = -1 ∧
    (call_function nominal_host (some bad_meta) (some native_add) zeros
      (some (.long_val 3))).trace
      = [.malloc .ffi_arg_types 16 true, .free .ffi_arg_types] ∧
    ((call_function nominal_host (some bad_meta) (some native_add) zeros
      (some (.long_val 3))).trace.any is_malloc) = true := by
  have ht : (call_function nominal_host (some bad_meta) (some native_add) zeros
      (some (.long_val 3))).trace = [.malloc .ffi_arg_types 16 true, .free .ffi_arg_types] := by
    simp [call_function, bad_meta, nominal_host, ctype_to_ffi_type, resolve_arg_types,
      tag_at, size_mul, to_size_t]
  refine ⟨rfl, rfl, by decide, ht, ?_⟩
  rw [ht]
  rfl

/-- C15, amended. A descriptor with an unresolved return tag makes
`call_function` fail with -1 before any event at all (no allocation); a
descriptor with an unresolved tag among its `num_args` arguments makes it fail
with -1 after at most the request for the argument descriptor array, which is
freed again, and before interface preparation, any other allocation and the
call. -/
theorem call_function_fails_fast (host : Host) (cf : CanonicalFunction)
    (func_ptr : Option NativeFn) (args_buffer : Mem) (result : Option CanonicalResult)
    (h : (∃ r, cf.return_type = .unknown r) ∨
      ∃ (i : Nat) (r : Nat), (i : Int) < cf.num_args ∧ cf.arg_types[i]? = some (.unknown r)) :
    (call_function host (some cf) func_ptr args_buffer result).ret = -1 ∧
    ((∃ r, cf.return_type = .unknown r) →
      (call_function host (some cf) func_ptr args_buffer result).trace = []) ∧
    ((call_function host (some cf) func_ptr args_buffer result).trace = [] ∨
      (call_function host (some cf) func_ptr args_buffer result).trace
        = [.malloc .ffi_arg_types (size_mul 8 cf.num_args) false] ∨
      (call_function host (some cf) func_ptr args_buffer result).trace
        = [.malloc .ffi_arg_types (size_mul 8 cf.num_args) true, .free .ffi_arg_types]) := by
  match func_ptr, result with
  | none, _ => simp [call_function]
  | some _, none => simp [call_function]
  | some fn, some res =>
      cases hr : ctype_to_ffi_type cf.return_type with
      | none => simp [call_function, hr]
      | some rt =>
          have hres : resolve_arg_types (tag_at host cf) 0 cf.num_args.toNat = none := by
            rcases h with ⟨r, h⟩ | ⟨i, r, hi, ht⟩
            · rw [h] at hr
              cases hr
            · apply resolve_arg_types_none _ _ 0 i (Nat.zero_le _) (by omega)
              simp [tag_at, ht, ctype_to_ffi_type]
          have hnot : ¬ ∃ r, cf.return_type = .unknown r := by
            intro ⟨r, h2⟩
            rw [h2] at hr
            cases hr
          simp only [call_function, hr, hres]
          split <;> simp [hnot]

/-- The amended C15 on the descriptor with an unknown second argument tag. -/
theorem call_function_fails_fast_witness :
    ((∃ r, bad_meta.return_type = .unknown r) ∨
      ∃ (i : Nat) (r : Nat), (i : Int) < bad_meta.num_args ∧
        bad_meta.arg_types[i]? = some (.unknown r)) ∧
    (call_function nominal_host (some bad_meta) (some native_void) ramp
        (some (.ptr_val 1))).ret = -1 ∧
    ((∃ r, bad_meta.return_type = .unknown r) →
      (call_function nominal_host (some bad_meta) (some native_void) ramp
        (some (.ptr_val 1))).trace = []) ∧
    ((call_function nominal_host (some bad_meta) (some native_void) ramp
        (some (.ptr_val 1))).trace = [] ∨
      (call_function nominal_host (some bad_meta) (some native_void) ramp
        (some (.ptr_val 1))).trace
        = [.malloc .ffi_arg_types (size_mul 8 bad_meta.num_args) false] ∨
      (call_function nominal_host (some bad_meta) (some native_void) ramp
        (some (.ptr_val 1))).trace
        = [.malloc .ffi_arg_types (size_mul 8 bad_meta.num_args) true, .free .ffi_arg_types]) :=
  ⟨Or.inr ⟨1, 99, by decide, rfl⟩,
    call_function_fails_fast nominal_host bad_meta (some native_void) ramp (some (.ptr_val 1))
      (Or.inr ⟨1, 99, by decide, rfl⟩)⟩

/-- The switch of source lines 145-162 looks at no byte of the return slot
beyond `return_read_width`. -/
theorem store_result_reads (t : CType) (s1 s2 : Mem) (res : CanonicalResult)
    (h : ∀ a, a < return_read_width t → s1 a = s2 a) :
    store_result t s1 res = store_result t s2 res := by
  cases t <;> simp only [store_result, return_read_width, read8] at h ⊢ <;>
    simp [h 0, h 1, h 2, h 3, h 4, h 5, h 6, h 7]

/-- C18 fails on the code: for the descriptor `add_meta` of the tests (return
tag INT) the return slot is allocated with 4 bytes, the extraction reads 8
bytes from it, and the stored result changes with byte 4 of the slot, which
lies outside the allocation; likewise CHAR, SHORT and FLOAT slots of 1, 2 and
4 bytes are read with width 8. -/
theorem return_slot_read_exceeds_allocation :
    Event.malloc .rc_val 4 true
      ∈ (call_function nominal_host (some add_meta) (some native_add) (add_args 5 10)
          (some (.long_val 0))).trace ∧
    return_read_width add_meta.return_type = 8 ∧
    ¬ return_read_width add_meta.return_type ≤ 4 ∧
    read_bytes (write_bytes zeros 4 [1]) 0 4 = read_bytes zeros 0 4 ∧
    store_result .C_TYPE_INT (write_bytes zeros 4 [1]) (.long_val 0)
      ≠ store_result .C_TYPE_INT zeros (.long_val 0) ∧
    (ctype_to_ffi_type .C_TYPE_CHAR).map ffi_type.size = some 1 ∧
    (ctype_to_ffi_type .C_TYPE_SHORT).map ffi_type.size = some 2 ∧
    (ctype_to_ffi_type .C_TYPE_FLOAT).map ffi_type.size = some 4 ∧
    return_read_width .C_TYPE_CHAR = 8 ∧ return_read_width .C_TYPE_SHORT = 8 ∧
    return_read_width .C_TYPE_FLOAT = 8 := by
  refine ⟨?_, rfl, by decide, by decide, by decide, rfl, rfl, rfl, rfl, rfl, rfl⟩
  simp [call_function, add_meta, nominal_host, ctype_to_ffi_type, resolve_arg_types,
    tag_at, ffi_type.size]

end CanonicalABI
